import Mathlib

/-!
Verification development for the City of Boston bid scraper
(`bidwire/cityofboston_scraper.py`).

The HTML documents handled by the scraper are embedded as a tree of
elements and text nodes mirroring the lxml element tree; the XPath
queries used by the source (`//b/a/@href`, `//center`, `b`, `text()`)
are embedded as traversals of that tree with lxml's documented
semantics (`text()` selects the direct text-node children; an
element's `.text` is the text between its start tag and its first
child element, `None` when absent).
-/

namespace Bidwire

/-- An lxml element-tree node: an element with a tag, attributes and
children, or a text node. -/
inductive Node where
  | elem (tag : String) (attrs : List (String × String)) (children : List Node)
  | text (s : String)

/-- Python `str.strip()` on the characters of a string: drop leading and
trailing whitespace. -/
def pyIsSpace (c : Char) : Bool :=
  c = ' ' ∨ c = '\t' ∨ c = '\n' ∨ c = '\r' ∨ c = '\x0b' ∨ c = '\x0c'

/-- Python `str.strip()`. -/
def pyStrip (s : String) : String :=
  ⟨((s.data.dropWhile pyIsSpace).reverse.dropWhile pyIsSpace).reverse⟩

/-- Python `"".join` over a list of strings. -/
def pyJoin (l : List String) : String :=
  l.foldr (fun a b => a ++ b) ""

/-- `Modelled from the spec:` the `Bid` record created by the scraper
(class `Bid` lives in `bid.py`, outside the analyzed sources); per the
data model it stores an identifier, a description, an ordered sequence
of item strings, and the symbolic site name. -/
structure Bid where
  identifier : String
  description : String
  items : List String
  site : String
deriving Repr, DecidableEq

/-- `Modelled from the spec:` the site tag enumeration (`Bid.Site`,
outside the analyzed sources); City of Boston is the only value used
here. -/
inductive Site where
  | CITYOFBOSTON
deriving Repr, DecidableEq

/-- Python's `Enum.name` for `Site`. -/
def Site.enumName : Site → String
  | .CITYOFBOSTON => "CITYOFBOSTON"

/-! ## Identifier extraction (`compiled_reg_exp`, `get_bid_id`,
`scrape_results_page`) -/

/-- The literal part of the pattern `bids\.asp\?ID=(\d+)`:
everything before the capture group, as characters. -/
def bidsAspLit : List Char := "bids.asp?ID=".data

/-- The codepoint ranges matched by Python 3's `\d` in a `str` pattern
compiled without `re.ASCII`: the Unicode decimal digits, category Nd
(Unicode 14.0.0, as shipped with CPython's `re`). -/
def pyDigitRanges : List (Nat × Nat) :=
  [(48, 57), (1632, 1641), (1776, 1785), (1984, 1993), (2406, 2415),
   (2534, 2543), (2662, 2671), (2790, 2799), (2918, 2927), (3046, 3055),
   (3174, 3183), (3302, 3311), (3430, 3439), (3558, 3567), (3664, 3673),
   (3792, 3801), (3872, 3881), (4160, 4169), (4240, 4249), (6112, 6121),
   (6160, 6169), (6470, 6479), (6608, 6617), (6784, 6793), (6800, 6809),
   (6992, 7001), (7088, 7097), (7232, 7241), (7248, 7257), (42528, 42537),
   (43216, 43225), (43264, 43273), (43472, 43481), (43504, 43513),
   (43600, 43609), (44016, 44025), (65296, 65305), (66720, 66729),
   (68912, 68921), (69734, 69743), (69872, 69881), (69942, 69951),
   (70096, 70105), (70384, 70393), (70736, 70745), (70864, 70873),
   (71248, 71257), (71360, 71369), (71472, 71481), (71904, 71913),
   (72016, 72025), (72784, 72793), (73040, 73049), (73120, 73129),
   (92768, 92777), (92864, 92873), (93008, 93017), (120782, 120831),
   (123200, 123209), (123632, 123641), (125264, 125273), (130032, 130041)]

/-- Python 3's `\d` for `str` patterns (no `re.ASCII` flag): matches
exactly the Unicode decimal digits (category Nd) — ASCII `0-9`,
Arabic-Indic `٠-٩`, Devanagari `०-९`, fullwidth digits, and so on. -/
def pyIsDigit (c : Char) : Bool :=
  pyDigitRanges.any (fun r => r.1 ≤ c.toNat ∧ c.toNat ≤ r.2)

/-- Embedding of `compiled_reg_exp.match(href)` followed by
`.group(1)` for the pattern `bids\.asp\?ID=(\d+)`: `re.match` anchors
at the start of the string, the literal must appear there, and the
greedy `\d+` captures the maximal nonempty run of Unicode decimal
digits that follows. Returns the capture, or `none` when the pattern
does not match at position 0. -/
def regMatchGroup1 (href : String) : Option String :=
  if bidsAspLit.isPrefixOf href.data then
    let ds := (href.data.drop bidsAspLit.length).takeWhile pyIsDigit
    if ds.isEmpty then none else some ⟨ds⟩
  else none

/-- `CityOfBostonScraper.get_bid_id`: extract the ID from an href, or
`None` when the regular expression does not match. -/
def get_bid_id (href : String) : Option String :=
  regMatchGroup1 href

mutual

/-- The XPath query `//b/a/@href` on the listing page: the `href`
attributes of the anchor elements whose parent is a bold element, in
document order. `parentIsB` records whether the parent of the node
under consideration is a `b` element. -/
def hrefsBA (parentIsB : Bool) : Node → List String
  | .text _ => []
  | .elem tag attrs children =>
    (if parentIsB ∧ tag = "a" then
      match attrs.lookup "href" with
      | some h => [h]
      | none => []
    else []) ++ hrefsBAList (tag = "b") children

def hrefsBAList (parentIsB : Bool) : List Node → List String
  | [] => []
  | n :: ns => hrefsBA parentIsB n ++ hrefsBAList parentIsB ns

end

/-- The accumulating loop of `scrape_results_page`: for each href, if
`get_bid_id` returns an ID it is appended (joined and stripped),
otherwise the href is skipped. -/
def resultsLoop : List String → List String → List String
  | [], acc => acc
  | url :: rest, acc =>
    match get_bid_id url with
    | none => resultsLoop rest acc
    | some bid_id => resultsLoop rest (acc ++ [pyStrip (pyJoin [bid_id])])

/-- `CityOfBostonScraper.scrape_results_page`: collect the bid
identifiers from the listing page. -/
def scrape_results_page (page : Node) : List String :=
  resultsLoop (hrefsBA false page) []

/-! ## Detail-page parsing (`scrape_bid_page`) -/

mutual

/-- The XPath query `//center` on the detail page, taking the first
match in document order (`tree.xpath('//center')[0]`); `none` models
the `IndexError` raised when no such element exists. -/
def findCenter : Node → Option Node
  | .text _ => none
  | .elem tag attrs cs =>
    if tag = "center" then some (.elem tag attrs cs) else findCenterList cs

def findCenterList : List Node → Option Node
  | [] => none
  | n :: ns =>
    match findCenter n with
    | some c => some c
    | none => findCenterList ns

end

def firstChildBList : List Node → Option Node
  | [] => none
  | .elem "b" attrs cs :: _ => some (.elem "b" attrs cs)
  | _ :: ns => firstChildBList ns

/-- The XPath query `b` relative to an element
(`first_center.xpath('b')[0]`): the first child element with tag `b`;
`none` models the `IndexError` when there is none. -/
def firstChildB : Node → Option Node
  | .text _ => none
  | .elem _ _ cs => firstChildBList cs

/-- lxml's `.text` of an element: the text between the start tag and
the first child element, `None` (here `none`) when there is none. -/
def lxmlText : Node → Option String
  | .elem _ _ (.text s :: _) => some s
  | _ => none

def childTextsList : List Node → List String
  | [] => []
  | .text s :: ns => s :: childTextsList ns
  | .elem _ _ _ :: ns => childTextsList ns

/-- The XPath query `text()` relative to an element
(`first_center.xpath('text()')`): the strings of the direct text-node
children, in order. Text inside child elements is not selected. -/
def childTexts : Node → List String
  | .text _ => []
  | .elem _ _ cs => childTextsList cs

/-- `CityOfBostonScraper.scrape_bid_page`: parse a detail page into a
`Bid`. `none` models the exception raised when the expected structure
is absent: no `center` element, no `b` child of the first `center`, or
a `b` whose `.text` is `None` (so that `.strip()` raises). -/
def scrape_bid_page (page : Node) (bid_id : String) : Option Bid :=
  match findCenter page with
  | none => none
  | some first_center =>
    match firstChildB first_center with
    | none => none
    | some start_text_element =>
      match lxmlText start_text_element with
      | none => none
      | some t =>
        some { identifier := bid_id
               description := pyStrip t
               items := [pyJoin (childTexts first_center)]
               site := Site.enumName Site.CITYOFBOSTON }

/-! ## The concurrent harvester (`process_new_bids`)

The outcome of each detail fetch is an environment parameter
`fetchRes : String → Option Node` (`none` models `scraper.get`
raising, which surfaces at `future.result()`); the nondeterministic
completion order of `concurrent.futures.as_completed` is a parameter
list, constrained to a permutation of the new identifiers in the
theorems. -/

/-- The outcome of `process_new_bids`: the `Bid` objects added to the
session, the number of fetch failures logged by the `except` branch,
and whether an uncaught exception escaped the loop (the `try` block
wraps only `future.result()`, so an exception raised by
`scrape_bid_page` in the `else` branch propagates and aborts the
loop). -/
structure HarvestOut where
  bids : List Bid
  logged : Nat
  aborted : Bool
deriving Repr, DecidableEq

/-- The `for future in concurrent.futures.as_completed(futures)` loop
of `process_new_bids`, over the completion order: a fetch failure is
caught and logged; a successfully fetched page is parsed outside the
`try`, so a parse failure terminates the loop with `aborted = true`,
while a parsed `Bid` is added to the session. -/
def harvestLoop (fetchRes : String → Option Node) :
    List String → List Bid → Nat → HarvestOut
  | [], bids, logged => ⟨bids, logged, false⟩
  | bid_id :: rest, bids, logged =>
    match fetchRes bid_id with
    | none => harvestLoop fetchRes rest bids (logged + 1)
    | some bid_page =>
      match scrape_bid_page bid_page bid_id with
      | none => ⟨bids, logged, true⟩
      | some bid => harvestLoop fetchRes rest (bids ++ [bid]) logged

/-- `CityOfBostonScraper.process_new_bids`, given the per-identifier
fetch outcomes and the completion order of the futures. -/
def process_new_bids (fetchRes : String → Option Node)
    (order : List String) : HarvestOut :=
  harvestLoop fetchRes order [] 0

/-! ## The run coordinator (`scrape`) -/

/-- Observable events of one run of `scrape`, in order. -/
inductive Event where
  | listingFetched
  | dedupQueried (candidates : List String) (result : List String)
  | detailFetched (id : String)
  | committed (nbids : Nat)
deriving Repr, DecidableEq

/-- The environment of one run: the outcome of the listing fetch
(`none` models `scraper.get(self.results_url)` raising), the external
dedup boundary `get_new_identifiers` (a query on the database, outside
the analyzed sources, kept abstract), the per-identifier detail-fetch
outcomes, and the completion order the scheduler produces for a list
of submitted identifiers. -/
structure Env where
  listing : Option Node
  dedup : List String → List String
  fetchRes : String → Option Node
  sched : List String → List String

/-- The result of one run of `scrape`: its event trace, the `Bid`
objects sitting in the session at the end, the number of logged fetch
failures, and whether the run completed without an exception
propagating to the caller. -/
structure RunOut where
  events : List Event
  bids : List Bid
  logged : Nat
  ok : Bool

/-- `CityOfBostonScraper.scrape`: fetch the listing (a failure there
propagates at once), extract the identifiers, query the dedup boundary
once, hand the new identifiers to `process_new_bids` (each submitted
future performs its detail fetch), and commit the session exactly when
no exception escaped the harvester. -/
def scrape (env : Env) : RunOut :=
  match env.listing with
  | none => ⟨[], [], 0, false⟩
  | some page =>
    let bid_ids := scrape_results_page page
    let new_ids := env.dedup bid_ids
    let out := process_new_bids env.fetchRes (env.sched new_ids)
    let evs := Event.listingFetched :: Event.dedupQueried bid_ids new_ids ::
      new_ids.map Event.detailFetched
    if out.aborted then
      ⟨evs, out.bids, out.logged, false⟩
    else
      ⟨evs ++ [Event.committed out.bids.length], out.bids, out.logged, true⟩

/-- Is this event the batch commit? -/
def Event.isCommit : Event → Bool
  | .committed _ => true
  | _ => false

/-- Is this event the dedup query? -/
def Event.isDedup : Event → Bool
  | .dedupQueried _ _ => true
  | _ => false

/-- Is this event a detail fetch? -/
def Event.isDetail : Event → Bool
  | .detailFetched _ => true
  | _ => false

/-- No detail fetch occurs before the first dedup query of the
trace. -/
def noDetailBeforeDedup : List Event → Bool
  | [] => true
  | .detailFetched _ :: _ => false
  | .dedupQueried _ _ :: _ => true
  | _ :: rest => noDetailBeforeDedup rest

/-! ## The worker pool (`ThreadPoolExecutor(max_workers=NUMBER_OF_THREADS)`)

`process_new_bids` submits one task per identifier to a
`concurrent.futures.ThreadPoolExecutor` built with
`max_workers=NUMBER_OF_THREADS`. Per the library's contract, the pool
runs a pending task only while fewer than `max_workers` tasks are in
flight; the small-step relation below embeds exactly that contract,
with the bound the source passes. -/

/-- Number of concurrent threads to process results page
(`NUMBER_OF_THREADS = 5`). -/
def NUMBER_OF_THREADS : Nat := 5

/-- A state of the worker pool: submitted tasks not yet started, tasks
currently running, finished tasks. -/
structure PoolState where
  pending : List String
  inFlight : List String
  done : List String
deriving Repr, DecidableEq

/-- The pool state right after `process_new_bids` submits one future
per new identifier. -/
def initPool (new_ids : List String) : PoolState :=
  ⟨new_ids, [], []⟩

/-- One scheduling step of the executor: a pending task may start only
while fewer than `NUMBER_OF_THREADS` tasks are in flight; an in-flight
task may finish at any time. -/
inductive PoolStep : PoolState → PoolState → Prop where
  | start (id : String) (rest inF dn : List String) :
      inF.length < NUMBER_OF_THREADS →
      PoolStep ⟨id :: rest, inF, dn⟩ ⟨rest, inF ++ [id], dn⟩
  | finish (pend inF₁ inF₂ dn : List String) (id : String) :
      PoolStep ⟨pend, inF₁ ++ id :: inF₂, dn⟩ ⟨pend, inF₁ ++ inF₂, dn ++ [id]⟩

/-! ## Fixtures and concrete environments -/

/-- A listing page with two bid links and one non-bid link, each an
anchor inside a bold element. -/
def listingFixture : Node :=
  .elem "html" [] [.elem "body" [] [.elem "table" [] [
    .elem "tr" [] [.elem "td" [] [
      .elem "b" [] [.elem "a" [("href", "bids.asp?ID=101")] [.text "Bid 101"]]]],
    .elem "tr" [] [.elem "td" [] [
      .elem "b" [] [.elem "a" [("href", "bids.asp?ID=202")] [.text "Bid 202"]]]],
    .elem "tr" [] [.elem "td" [] [
      .elem "b" [] [.elem "a" [("href", "home.asp")] [.text "Home"]]]]]]]

/-- A listing page whose only anchor-in-bold link does not match the
pattern. -/
def noMatchFixture : Node :=
  .elem "html" [] [.elem "body" [] [
    .elem "b" [] [.elem "a" [("href", "home.asp")] [.text "Home"]]]]

/-- A listing page whose bold-nested anchor carries Arabic-Indic
(Unicode Nd) digits in its bid link. -/
def unicodeFixture : Node :=
  .elem "html" [] [.elem "body" [] [
    .elem "b" [] [.elem "a" [("href", "bids.asp?ID=٥٦")] [.text "z"]]]]

/-- A listing page carrying the same bid link twice. -/
def dupFixture : Node :=
  .elem "html" [] [.elem "body" [] [
    .elem "b" [] [.elem "a" [("href", "bids.asp?ID=101")] [.text "x"]],
    .elem "b" [] [.elem "a" [("href", "bids.asp?ID=101")] [.text "y"]]]]

/-- The detail fixture of the spec: the first centered block is
`<b>Snow Removal</b> Contract for winter 2024`. -/
def detailFixture : Node :=
  .elem "html" [] [.elem "body" [] [
    .elem "center" [] [
      .elem "b" [] [.text "Snow Removal"],
      .text " Contract for winter 2024"]]]

/-- A detail page with no `center` element: `scrape_bid_page` raises
on it. -/
def badPage : Node :=
  .elem "html" [] [.elem "body" [] [.text "gone"]]

/-- Detail-fetch outcomes where identifiers `a` and `b` both fetch
successfully, `a` yielding an unparseable page and `b` the good
fixture. -/
def cexFetch : String → Option Node := fun id =>
  if id = "a" then some badPage
  else if id = "b" then some detailFixture
  else none

/-- Detail-fetch outcomes where identifier `2` suffers a transport
failure and every other identifier fetches the good fixture. -/
def fetch3 : String → Option Node := fun id =>
  if id = "2" then none else some detailFixture

/-- A fully successful concrete environment: the listing fixture, an
identity dedup boundary, every detail fetch yielding the good fixture,
and submission-order completion. -/
def envW : Env :=
  ⟨some listingFixture, fun l => l, fun _ => some detailFixture, fun l => l⟩

/-- An environment whose listing fetch fails. -/
def envFail : Env :=
  ⟨none, fun l => l, fun _ => some detailFixture, fun l => l⟩

/-- An environment whose dedup boundary reports every candidate as
already known. -/
def envEmpty : Env :=
  ⟨some listingFixture, fun _ => [], fun _ => some detailFixture, fun l => l⟩

/-- Twenty identifiers, as in the spec's concurrency-bound test. -/
def ids20 : List String :=
  ["1", "2", "3", "4", "5", "6", "7", "8", "9", "10",
   "11", "12", "13", "14", "15", "16", "17", "18", "19", "20"]

/-! ## Helper lemmas -/

theorem isPrefixOf_append_self (l t : List Char) : l.isPrefixOf (l ++ t) = true := by
  induction l with
  | nil => simp [List.isPrefixOf]
  | cons a l ih => simp [List.isPrefixOf, ih]

theorem eq_append_of_isPrefixOf {l h : List Char} (hp : l.isPrefixOf h = true) :
    ∃ t, h = l ++ t := by
  induction l generalizing h with
  | nil => exact ⟨h, rfl⟩
  | cons a l ih =>
    cases h with
    | nil => simp [List.isPrefixOf] at hp
    | cons b h =>
      simp only [List.isPrefixOf, Bool.and_eq_true, beq_iff_eq] at hp
      obtain ⟨rfl, hp⟩ := hp
      obtain ⟨t, rfl⟩ := ih hp
      exact ⟨t, rfl⟩

theorem head?_dropWhile_not (p : Char → Bool) (l : List Char) (c : Char)
    (h : (l.dropWhile p).head? = some c) : p c = false := by
  induction l with
  | nil => simp at h
  | cons a l ih =>
    by_cases hp : p a
    · rw [List.dropWhile_cons_of_pos hp] at h
      exact ih h
    · rw [List.dropWhile_cons_of_neg hp] at h
      simp only [List.head?_cons, Option.some.injEq] at h
      subst h
      simpa using hp

theorem takeWhile_append_of_sat (p : Char → Bool) (l₁ l₂ : List Char)
    (h1 : ∀ c ∈ l₁, p c = true) (h2 : ∀ c, l₂.head? = some c → p c = false) :
    (l₁ ++ l₂).takeWhile p = l₁ := by
  induction l₁ with
  | nil =>
    cases l₂ with
    | nil => rfl
    | cons b t =>
      have := h2 b rfl
      simp [List.takeWhile_cons, this]
  | cons a l ih =>
    have ha : p a = true := h1 a (List.mem_cons_self a l)
    simp only [List.cons_append, List.takeWhile_cons, ha, if_true]
    rw [ih (fun c hc => h1 c (List.mem_cons_of_mem a hc))]

/-- `resultsLoop` is a `filterMap` with an accumulator. -/
theorem resultsLoop_eq_filterMap (l acc : List String) :
    resultsLoop l acc =
      acc ++ l.filterMap (fun u => (get_bid_id u).map (fun s => pyStrip (pyJoin [s]))) := by
  induction l generalizing acc with
  | nil => simp [resultsLoop]
  | cons u rest ih =>
    cases hu : get_bid_id u with
    | none => simp [resultsLoop, hu, ih]
    | some s => simp [resultsLoop, hu, ih]

/-! ## Claim theorems -/

/-- **C10.** The identifier extractor's pattern acceptance: `get_bid_id`
returns `some s` exactly when the href begins (at position 0) with the
literal `bids.asp?ID=` followed by at least one decimal digit (any
Unicode Nd digit, as Python's `\d` matches), and `s` is the maximal
run of decimal digits following that literal; in particular an href
carrying the template after a path, such as
`/purchasing/bids.asp?ID=5`, is rejected, while
`bids.asp?ID=٥٦` (Arabic-Indic digits) is accepted with
identifier `٥٦`. -/
theorem c10_get_bid_id_characterization :
    (∀ h s : String, get_bid_id h = some s ↔
      ∃ rest : List Char,
        h.data = bidsAspLit ++ s.data ++ rest ∧
        s.data ≠ [] ∧ (∀ c ∈ s.data, pyIsDigit c = true) ∧
        (∀ c, rest.head? = some c → pyIsDigit c = false)) ∧
    get_bid_id "/purchasing/bids.asp?ID=5" = none ∧
    get_bid_id "bids.asp?ID=٥٦" = some "٥٦" := by
  refine ⟨?_, rfl, by decide⟩
  intro h s
  constructor
  · intro hsome
    unfold get_bid_id regMatchGroup1 at hsome
    by_cases hp : bidsAspLit.isPrefixOf h.data
    · rw [if_pos hp] at hsome
      obtain ⟨t, ht⟩ := eq_append_of_isPrefixOf hp
      by_cases he : ((h.data.drop bidsAspLit.length).takeWhile pyIsDigit).isEmpty
      · rw [if_pos he] at hsome
        exact absurd hsome (by simp)
      · rw [if_neg he] at hsome
        have hdrop : h.data.drop bidsAspLit.length = t := by
          rw [ht, List.drop_left]
        rw [hdrop] at hsome he
        have hs : s.data = t.takeWhile pyIsDigit := by
          have := congrArg (fun o => o.map String.data) hsome
          simpa using this.symm
        refine ⟨t.dropWhile pyIsDigit, ?_, ?_, ?_, ?_⟩
        · rw [ht, hs, List.append_assoc, List.takeWhile_append_dropWhile]
        · intro hnil
          rw [hs] at hnil
          rw [hnil] at he
          simp at he
        · intro c hc
          rw [hs] at hc
          exact List.mem_takeWhile_imp hc
        · intro c hc
          exact head?_dropWhile_not _ _ _ hc
    · rw [if_neg hp] at hsome
      exact absurd hsome (by simp)
  · rintro ⟨rest, hdata, hne, hdig, hrest⟩
    unfold get_bid_id regMatchGroup1
    have hp : bidsAspLit.isPrefixOf h.data = true := by
      rw [hdata, List.append_assoc]
      exact isPrefixOf_append_self bidsAspLit (s.data ++ rest)
    rw [if_pos hp]
    have hdrop : h.data.drop bidsAspLit.length = s.data ++ rest := by
      rw [hdata, List.append_assoc, List.drop_left]
    rw [hdrop, takeWhile_append_of_sat pyIsDigit s.data rest hdig hrest]
    rw [if_neg (by simpa using hne)]

/-- **C4.** The identifier extractor returns, in document order, the
stripped IDs of exactly the anchors nested in bold elements whose href
matches the pattern (a `filterMap` over the `//b/a/@href` node set:
non-matching anchors are silently skipped, duplicates are preserved,
and no match yields the empty sequence rather than a failure); on the
listing fixture with links `bids.asp?ID=101`, `bids.asp?ID=202` and
`home.asp` it returns exactly `["101", "202"]`; a link with
Arabic-Indic digits, `bids.asp?ID=٥٦`, yields `"٥٦"`, since
Python's `\d` matches any Unicode Nd digit. -/
theorem c4_extraction_correctness :
    (∀ page : Node, scrape_results_page page =
      (hrefsBA false page).filterMap
        (fun u => (get_bid_id u).map (fun s => pyStrip (pyJoin [s])))) ∧
    scrape_results_page listingFixture = ["101", "202"] ∧
    scrape_results_page noMatchFixture = [] ∧
    scrape_results_page dupFixture = ["101", "101"] ∧
    scrape_results_page unicodeFixture = ["٥٦"] := by
  refine ⟨fun page => ?_, rfl, rfl, rfl, by decide⟩
  simpa using resultsLoop_eq_filterMap (hrefsBA false page) []

/-- **C2 (as stated) refuted.** On the detail fixture whose first
centered block is `<b>Snow Removal</b> Contract for winter 2024`, the
parser does return `description = "Snow Removal"`, but `items` is
`[" Contract for winter 2024"]` — the XPath `text()` step selects only
the direct text-node children of the centered container, so the bold
lead-in's text is not part of the single item and the leading space is
kept — not `["Snow Removal Contract for winter 2024"]` as claimed. -/
theorem c2_claim_counterexample :
    (scrape_bid_page detailFixture "7").map Bid.description = some "Snow Removal" ∧
    (scrape_bid_page detailFixture "7").map Bid.items = some [" Contract for winter 2024"] ∧
    (scrape_bid_page detailFixture "7").map Bid.items ≠
      some ["Snow Removal Contract for winter 2024"] := by
  refine ⟨rfl, rfl, ?_⟩
  decide

/-- **C2 (amended).** For the detail fixture whose first centered
block is `<b>Snow Removal</b> Contract for winter 2024`, the parser
returns `description = "Snow Removal"` (the whitespace-trimmed text of
the bold lead-in) and `items = [" Contract for winter 2024"]`: a
single-element sequence containing the concatenation of the direct
text-node children of the first centered container, which excludes the
text inside the bold lead-in and preserves surrounding whitespace. -/
theorem c2_parse_fixture (bid_id : String) :
    scrape_bid_page detailFixture bid_id =
      some ⟨bid_id, "Snow Removal", [" Contract for winter 2024"], "CITYOFBOSTON"⟩ := rfl

/-- **C8.** A listing-fetch failure is fatal: the run produces no
events at all (no extraction, no dedup query, no detail fetch, no
commit), leaves no bids in the session, and reports failure to the
caller. -/
theorem c8_listing_failure_fatal (env : Env) (hl : env.listing = none) :
    (scrape env).events = [] ∧ (scrape env).bids = [] ∧ (scrape env).ok = false := by
  simp [scrape, hl]

/-- Witness for `c8_listing_failure_fatal` at the concrete failing
environment. -/
theorem c8_listing_failure_fatal_witness :
    (scrape envFail).events = [] ∧ (scrape envFail).bids = [] ∧
      (scrape envFail).ok = false :=
  c8_listing_failure_fatal envFail rfl

/-- A successful parse stamps the bid with the identifier whose page
was parsed. -/
theorem scrape_bid_page_identifier (page : Node) (id : String) (b : Bid)
    (h : scrape_bid_page page id = some b) : b.identifier = id := by
  unfold scrape_bid_page at h
  cases hc : findCenter page with
  | none => simp [hc] at h
  | some c =>
    simp only [hc] at h
    cases hb : firstChildB c with
    | none => simp [hb] at h
    | some be =>
      simp only [hb] at h
      cases ht : lxmlText be with
      | none => simp [ht] at h
      | some t =>
        simp only [ht, Option.some.injEq] at h
        rw [← h]

/-- When every identifier in the completion order either suffers a
fetch failure or parses successfully, the harvester loop finishes
without aborting, adding exactly the successfully parsed bids and
logging exactly the fetch failures. -/
theorem harvestLoop_no_parse_failure (f : String → Option Node) (order : List String)
    (acc : List Bid) (n : Nat)
    (h : ∀ id ∈ order, f id = none ∨
      ∃ p b, f id = some p ∧ scrape_bid_page p id = some b) :
    harvestLoop f order acc n =
      ⟨acc ++ order.filterMap (fun id => (f id).bind (fun p => scrape_bid_page p id)),
       n + order.countP (fun id => (f id).isNone),
       false⟩ := by
  induction order generalizing acc n with
  | nil => simp [harvestLoop]
  | cons id rest ih =>
    have hid := h id (List.mem_cons_self id rest)
    have hrest : ∀ i ∈ rest, f i = none ∨
        ∃ p b, f i = some p ∧ scrape_bid_page p i = some b :=
      fun i hi => h i (List.mem_cons_of_mem id hi)
    rcases hid with hnone | ⟨p, b, hp, hb⟩
    · rw [show harvestLoop f (id :: rest) acc n = harvestLoop f rest acc (n + 1) by
        simp [harvestLoop, hnone]]
      rw [ih acc (n + 1) hrest]
      simp only [List.filterMap_cons, hnone, Option.none_bind, List.countP_cons, hnone]
      simp [Nat.add_assoc, Nat.add_comm]
    · rw [show harvestLoop f (id :: rest) acc n = harvestLoop f rest (acc ++ [b]) n by
        simp [harvestLoop, hp, hb]]
      rw [ih (acc ++ [b]) n hrest]
      simp only [List.filterMap_cons, hp, Option.some_bind, hb, List.countP_cons]
      simp [hp, List.append_assoc]

/-- The harvester loop only ever appends bids, each produced by
parsing the page fetched for its own identifier, and the identifiers
of the appended bids form a sublist of the completion order. -/
theorem harvestLoop_provenance (f : String → Option Node) (order : List String)
    (acc : List Bid) (n : Nat) :
    ∃ rest : List Bid,
      (harvestLoop f order acc n).bids = acc ++ rest ∧
      (rest.map Bid.identifier).Sublist order ∧
      ∀ b ∈ rest, ∃ p, f b.identifier = some p ∧
        scrape_bid_page p b.identifier = some b := by
  induction order generalizing acc n with
  | nil => exact ⟨[], by simp [harvestLoop], by simp, by simp⟩
  | cons id tl ih =>
    cases hf : f id with
    | none =>
      obtain ⟨rest, h1, h2, h3⟩ := ih acc (n + 1)
      refine ⟨rest, ?_, h2.cons id, h3⟩
      simpa [harvestLoop, hf] using h1
    | some p =>
      cases hb : scrape_bid_page p id with
      | none =>
        refine ⟨[], ?_, by simp, by simp⟩
        simp [harvestLoop, hf, hb]
      | some b =>
        obtain ⟨rest, h1, h2, h3⟩ := ih (acc ++ [b]) n
        have hbid : b.identifier = id := scrape_bid_page_identifier p id b hb
        refine ⟨b :: rest, ?_, ?_, ?_⟩
        · rw [show (harvestLoop f (id :: tl) acc n).bids =
              (harvestLoop f tl (acc ++ [b]) n).bids by simp [harvestLoop, hf, hb]]
          simpa [List.append_assoc] using h1
        · simpa [hbid] using h2.cons₂ id
        · intro x hx
          rcases List.mem_cons.mp hx with rfl | hx
          · exact ⟨p, by rw [hbid]; exact hf, by rw [hbid]; exact hb⟩
          · exact h3 x hx

/-- **C5.** Harvester invariant: whenever the completion order is a
permutation of the duplicate-free set of identifiers confirmed new at
dedupe time, every bid the harvester emits carries an identifier from
that set, is the parse of the page fetched for that very identifier,
and no two emitted bids share an identifier. -/
theorem c5_harvester_invariant (env : Env) (new_ids : List String)
    (hperm : (env.sched new_ids).Perm new_ids) (hnd : new_ids.Nodup) :
    (∀ b ∈ (process_new_bids env.fetchRes (env.sched new_ids)).bids,
      b.identifier ∈ new_ids ∧
      ∃ p, env.fetchRes b.identifier = some p ∧
        scrape_bid_page p b.identifier = some b) ∧
    ((process_new_bids env.fetchRes (env.sched new_ids)).bids.map Bid.identifier).Nodup := by
  obtain ⟨rest, h1, h2, h3⟩ :=
    harvestLoop_provenance env.fetchRes (env.sched new_ids) [] 0
  have hbids : (process_new_bids env.fetchRes (env.sched new_ids)).bids = rest := by
    simpa [process_new_bids] using h1
  constructor
  · intro b hb
    rw [hbids] at hb
    refine ⟨?_, h3 b hb⟩
    exact hperm.mem_iff.mp (h2.subset (List.mem_map_of_mem Bid.identifier hb))
  · rw [hbids]
    exact (hperm.nodup_iff.mpr hnd).sublist h2

/-- Witness for `c5_harvester_invariant` on a concrete two-identifier
run of the harvester. -/
theorem c5_harvester_invariant_witness :
    (∀ b ∈ (process_new_bids envW.fetchRes (envW.sched ["101", "202"])).bids,
      b.identifier ∈ ["101", "202"] ∧
      ∃ p, envW.fetchRes b.identifier = some p ∧
        scrape_bid_page p b.identifier = some b) ∧
    ((process_new_bids envW.fetchRes
        (envW.sched ["101", "202"])).bids.map Bid.identifier).Nodup :=
  c5_harvester_invariant envW ["101", "202"] (List.Perm.refl _) (by decide)

/-- A `filterMap` whose function succeeds on every member preserves
length. -/
theorem length_filterMap_of_all_some {α β : Type} (g : α → Option β) (l : List α)
    (h : ∀ a ∈ l, (g a).isSome = true) : (l.filterMap g).length = l.length := by
  induction l with
  | nil => rfl
  | cons a tl ih =>
    have ha := h a (List.mem_cons_self a tl)
    cases hg : g a with
    | none => rw [hg] at ha; simp at ha
    | some b =>
      rw [List.filterMap_cons_some hg]
      simp only [List.length_cons]
      rw [ih (fun x hx => h x (List.mem_cons_of_mem a hx))]

/-- **C3.** Transport-failure isolation in the harvester: for every
completion order of distinct new identifiers in which exactly one
identifier's detail fetch fails and every other identifier fetches and
parses successfully, the harvester emits exactly `n - 1` bids, logs
exactly one failure, and does not abort. -/
theorem c3_transport_isolation (f : String → Option Node) (order : List String)
    (bad : String) (hmem : bad ∈ order) (hnd : order.Nodup)
    (hbad : f bad = none)
    (hok : ∀ id ∈ order, id ≠ bad →
      ∃ p b, f id = some p ∧ scrape_bid_page p id = some b) :
    (process_new_bids f order).bids.length = order.length - 1 ∧
    (process_new_bids f order).logged = 1 ∧
    (process_new_bids f order).aborted = false := by
  have hall : ∀ id ∈ order, f id = none ∨
      ∃ p b, f id = some p ∧ scrape_bid_page p id = some b := by
    intro id hid
    by_cases he : id = bad
    · subst he; exact Or.inl hbad
    · exact Or.inr (hok id hid he)
  have hrun : process_new_bids f order =
      ⟨[] ++ order.filterMap (fun id => (f id).bind (fun p => scrape_bid_page p id)),
       0 + order.countP (fun id => (f id).isNone), false⟩ :=
    harvestLoop_no_parse_failure f order [] 0 hall
  obtain ⟨l₁, l₂, rfl⟩ := List.append_of_mem hmem
  rw [List.nodup_append] at hnd
  have hbad1 : bad ∉ l₁ := fun hx => hnd.2.2 hx (List.mem_cons_self bad l₂)
  have hbad2 : bad ∉ l₂ := (List.nodup_cons.mp hnd.2.1).1
  have hsome : ∀ id, id ∈ l₁ ∨ id ∈ l₂ →
      ((f id).bind (fun p => scrape_bid_page p id)).isSome = true ∧
      (f id).isNone = false := by
    intro id hid
    have hne : id ≠ bad := by
      rintro rfl
      rcases hid with h1 | h2
      · exact hbad1 h1
      · exact hbad2 h2
    have hmem' : id ∈ l₁ ++ bad :: l₂ := by
      rcases hid with h1 | h2
      · exact List.mem_append_left _ h1
      · exact List.mem_append_right _ (List.mem_cons_of_mem bad h2)
    obtain ⟨p, b, hp, hb⟩ := hok id hmem' hne
    rw [hp]
    simp [hb]
  rw [hrun]
  refine ⟨?_, ?_, rfl⟩
  · simp only [List.nil_append, List.filterMap_append, List.length_append]
    rw [List.filterMap_cons_none (by rw [hbad]; rfl)]
    rw [length_filterMap_of_all_some _ l₁ (fun a ha => (hsome a (Or.inl ha)).1)]
    rw [length_filterMap_of_all_some _ l₂ (fun a ha => (hsome a (Or.inr ha)).1)]
    simp only [List.length_append, List.length_cons]
    omega
  · simp only [Nat.zero_add, List.countP_append, List.countP_cons]
    rw [List.countP_eq_zero.mpr (by
      intro a ha
      simp [(hsome a (Or.inl ha)).2])]
    rw [List.countP_eq_zero.mpr (by
      intro a ha
      simp [(hsome a (Or.inr ha)).2])]
    simp [hbad]

/-- Witness for `c3_transport_isolation`: three new identifiers, the
detail fetch of identifier `2` fails, and the harvester returns
exactly two bids with one logged failure. -/
theorem c3_transport_isolation_witness :
    (process_new_bids fetch3 ["1", "2", "3"]).bids.length = 2 ∧
    (process_new_bids fetch3 ["1", "2", "3"]).logged = 1 ∧
    (process_new_bids fetch3 ["1", "2", "3"]).aborted = false := by
  have hok : ∀ id ∈ (["1", "2", "3"] : List String), id ≠ "2" →
      ∃ p b, fetch3 id = some p ∧ scrape_bid_page p id = some b := by
    intro id hid hne
    rcases (by simpa using hid : id = "1" ∨ id = "2" ∨ id = "3") with rfl | rfl | rfl
    · exact ⟨detailFixture,
        ⟨"1", "Snow Removal", [" Contract for winter 2024"], "CITYOFBOSTON"⟩, rfl, rfl⟩
    · exact absurd rfl hne
    · exact ⟨detailFixture,
        ⟨"3", "Snow Removal", [" Contract for winter 2024"], "CITYOFBOSTON"⟩, rfl, rfl⟩
  have h := c3_transport_isolation fetch3 ["1", "2", "3"] "2"
    (by decide) (by decide) rfl hok
  simpa using h

/-- The harvester loop stops at the first identifier whose fetched
page fails to parse: bids collected before it are kept, the loop
reports the abort, and everything after it in the completion order is
dropped. -/
theorem harvestLoop_abort_at_parse_failure (f : String → Option Node)
    (post : List String) (bad : String) (page : Node)
    (hbf : f bad = some page) (hbp : scrape_bid_page page bad = none)
    (pre : List String) :
    ∀ (acc : List Bid) (n : Nat),
      (∀ id ∈ pre, f id = none ∨
        ∃ p b, f id = some p ∧ scrape_bid_page p id = some b) →
      harvestLoop f (pre ++ bad :: post) acc n =
        ⟨acc ++ pre.filterMap (fun id => (f id).bind (fun p => scrape_bid_page p id)),
         n + pre.countP (fun id => (f id).isNone), true⟩ := by
  induction pre with
  | nil =>
    intro acc n _
    simp [harvestLoop, hbf, hbp]
  | cons id tl ih =>
    intro acc n h
    have hid := h id (List.mem_cons_self id tl)
    have htl : ∀ i ∈ tl, f i = none ∨
        ∃ p b, f i = some p ∧ scrape_bid_page p i = some b :=
      fun i hi => h i (List.mem_cons_of_mem id hi)
    rcases hid with hnone | ⟨p, b, hp, hb⟩
    · rw [show harvestLoop f ((id :: tl) ++ bad :: post) acc n =
          harvestLoop f (tl ++ bad :: post) acc (n + 1) by
        simp [harvestLoop, hnone]]
      rw [ih acc (n + 1) htl]
      simp only [List.filterMap_cons, hnone, Option.none_bind, List.countP_cons, hnone]
      simp [Nat.add_assoc, Nat.add_comm]
    · rw [show harvestLoop f ((id :: tl) ++ bad :: post) acc n =
          harvestLoop f (tl ++ bad :: post) (acc ++ [b]) n by
        simp [harvestLoop, hp, hb]]
      rw [ih (acc ++ [b]) n htl]
      simp only [List.filterMap_cons, hp, Option.some_bind, hb, List.countP_cons]
      simp [hp, List.append_assoc]

/-- **C1 (as stated) refuted.** Parse failures are not isolated: with
completion order `["a", "b"]`, identifier `b` fetches and parses
successfully on its own, yet when the page of `a` fails to parse the
harvester aborts and `b`'s bid is not in the output. Only fetch
failures are caught by the harvester's `try`/`except`; `scrape_bid_page`
runs outside the `try`. -/
theorem c1_claim_counterexample :
    (process_new_bids cexFetch ["b"]).bids.map Bid.identifier = ["b"] ∧
    (process_new_bids cexFetch ["a", "b"]).aborted = true ∧
    "b" ∉ (process_new_bids cexFetch ["a", "b"]).bids.map Bid.identifier := by
  decide

/-- **C1 (amended).** Inside the harvester only fetch failures are
isolated (caught, logged, identifier dropped); a parse failure
(`StructureMismatch`) is not caught: the harvester aborts at the first
parse failure in completion order, keeping exactly the bids of the
identifiers that fetched and parsed before it, logging exactly the
fetch failures seen before it, and the error propagates (the run's
later stages are skipped). -/
theorem c1_parse_failure_aborts (f : String → Option Node)
    (pre post : List String) (bad : String) (page : Node)
    (hpre : ∀ id ∈ pre, f id = none ∨
      ∃ p b, f id = some p ∧ scrape_bid_page p id = some b)
    (hbf : f bad = some page) (hbp : scrape_bid_page page bad = none) :
    process_new_bids f (pre ++ bad :: post) =
      ⟨pre.filterMap (fun id => (f id).bind (fun p => scrape_bid_page p id)),
       pre.countP (fun id => (f id).isNone), true⟩ := by
  have h := harvestLoop_abort_at_parse_failure f post bad page hbf hbp pre [] 0 hpre
  simpa [process_new_bids] using h

/-- Witness for `c1_parse_failure_aborts`: identifier `b` completes
first and is kept, then `a`'s page fails to parse, aborting the
harvest and dropping the still-pending `z`. -/
theorem c1_parse_failure_aborts_witness :
    process_new_bids cexFetch ["b", "a", "z"] =
      ⟨[⟨"b", "Snow Removal", [" Contract for winter 2024"], "CITYOFBOSTON"⟩], 0, true⟩ := by
  have hpre : ∀ id ∈ (["b"] : List String), cexFetch id = none ∨
      ∃ p b, cexFetch id = some p ∧ scrape_bid_page p id = some b := by
    intro id hid
    simp only [List.mem_singleton] at hid
    subst hid
    exact Or.inr ⟨detailFixture,
      ⟨"b", "Snow Removal", [" Contract for winter 2024"], "CITYOFBOSTON"⟩, rfl, rfl⟩
  have h := c1_parse_failure_aborts cexFetch ["b"] ["z"] "a" badPage hpre rfl rfl
  rw [show (["b"] ++ "a" :: ["z"] : List String) = ["b", "a", "z"] from rfl] at h
  rw [h]
  decide

/-- Shape of a run whose listing fetch succeeds: its trace is the
listing fetch, the single dedup query, one detail fetch per new
identifier, then the commit exactly when the harvester did not abort;
its session bids are the harvester's. -/
theorem scrape_events_shape (env : Env) (page : Node) (hl : env.listing = some page) :
    (scrape env).events =
      Event.listingFetched :: Event.dedupQueried (scrape_results_page page)
          (env.dedup (scrape_results_page page)) ::
        ((env.dedup (scrape_results_page page)).map Event.detailFetched ++
          (if (process_new_bids env.fetchRes
                (env.sched (env.dedup (scrape_results_page page)))).aborted then []
           else [Event.committed (process_new_bids env.fetchRes
                (env.sched (env.dedup (scrape_results_page page)))).bids.length])) ∧
    (scrape env).ok = !(process_new_bids env.fetchRes
        (env.sched (env.dedup (scrape_results_page page)))).aborted ∧
    (scrape env).bids = (process_new_bids env.fetchRes
        (env.sched (env.dedup (scrape_results_page page)))).bids := by
  unfold scrape
  rw [hl]
  by_cases h : (process_new_bids env.fetchRes
      (env.sched (env.dedup (scrape_results_page page)))).aborted
  · simp [h]
  · simp [h]

/-- Detail-fetch events never satisfy a predicate that rejects them. -/
theorem countP_map_detailFetched (p : Event → Bool) (l : List String)
    (h : ∀ id, p (Event.detailFetched id) = false) :
    (l.map Event.detailFetched).countP p = 0 := by
  induction l with
  | nil => rfl
  | cons a tl ih => simp [List.countP_cons, h, ih]

/-- **C6.** Commit discipline of the run coordinator: no run ever
commits more than once; a run that completes without a propagating
error commits exactly once; and when the dedup query returns the empty
set the run proceeds directly to a successful commit of zero bids,
performing no detail fetch. -/
theorem c6_single_commit (env : Env) (page : Node) (hl : env.listing = some page)
    (hperm : (env.sched (env.dedup (scrape_results_page page))).Perm
      (env.dedup (scrape_results_page page))) :
    (∀ e : Env, (scrape e).events.countP Event.isCommit ≤ 1) ∧
    ((scrape env).ok = true → (scrape env).events.countP Event.isCommit = 1) ∧
    (env.dedup (scrape_results_page page) = [] →
      (scrape env).ok = true ∧ (scrape env).bids = [] ∧
      (scrape env).events.countP Event.isDetail = 0 ∧
      Event.committed 0 ∈ (scrape env).events) := by
  obtain ⟨hev, hok, hbids⟩ := scrape_events_shape env page hl
  have hcount0 : ∀ l : List String,
      (l.map Event.detailFetched).countP Event.isCommit = 0 :=
    fun l => countP_map_detailFetched Event.isCommit l (fun _ => rfl)
  refine ⟨?_, ?_, ?_⟩
  · intro e
    cases he : e.listing with
    | none =>
      have := c8_listing_failure_fatal e he
      rw [this.1]
      simp
    | some q =>
      obtain ⟨hev', _, _⟩ := scrape_events_shape e q he
      rw [hev']
      by_cases ha : (process_new_bids e.fetchRes
          (e.sched (e.dedup (scrape_results_page q)))).aborted
      · simp [ha, List.countP_cons, List.countP_append, Event.isCommit, hcount0]
      · simp [ha, List.countP_cons, List.countP_append, Event.isCommit, hcount0]
  · intro hk
    rw [hok] at hk
    have ha : (process_new_bids env.fetchRes
        (env.sched (env.dedup (scrape_results_page page)))).aborted = false := by
      simpa using hk
    rw [hev, ha]
    simp [List.countP_cons, List.countP_append, Event.isCommit, hcount0]
  · intro hnil
    have horder : env.sched (env.dedup (scrape_results_page page)) = [] := by
      rw [hnil] at hperm ⊢
      exact hperm.eq_nil
    have hproc : process_new_bids env.fetchRes
        (env.sched (env.dedup (scrape_results_page page))) = ⟨[], 0, false⟩ := by
      rw [horder]
      rfl
    refine ⟨?_, ?_, ?_, ?_⟩
    · rw [hok, hproc]
      rfl
    · rw [hbids, hproc]
    · rw [hev, hproc, hnil]
      simp [List.countP_cons, List.countP_append, Event.isDetail]
    · rw [hev, hproc, hnil]
      simp

/-- Witness for `c6_single_commit` at the environment whose dedup
boundary reports every candidate as already known. -/
theorem c6_single_commit_witness :
    (∀ e : Env, (scrape e).events.countP Event.isCommit ≤ 1) ∧
    ((scrape envEmpty).ok = true → (scrape envEmpty).events.countP Event.isCommit = 1) ∧
    (envEmpty.dedup (scrape_results_page listingFixture) = [] →
      (scrape envEmpty).ok = true ∧ (scrape envEmpty).bids = [] ∧
      (scrape envEmpty).events.countP Event.isDetail = 0 ∧
      Event.committed 0 ∈ (scrape envEmpty).events) :=
  c6_single_commit envEmpty listingFixture rfl (List.Perm.refl _)

/-- **C7.** Dedup ordering: a run whose listing fetch succeeds issues
exactly one dedup query, every identifier whose detail page is fetched
belongs to the set that single query returned, and no detail fetch
occurs before the dedup query in the run's trace. -/
theorem c7_dedup_once_before_fetch (env : Env) (page : Node)
    (hl : env.listing = some page) :
    (scrape env).events.countP Event.isDedup = 1 ∧
    (∀ id, Event.detailFetched id ∈ (scrape env).events →
      id ∈ env.dedup (scrape_results_page page)) ∧
    noDetailBeforeDedup (scrape env).events = true := by
  obtain ⟨hev, _, _⟩ := scrape_events_shape env page hl
  have hcount0 : ∀ l : List String,
      (l.map Event.detailFetched).countP Event.isDedup = 0 :=
    fun l => countP_map_detailFetched Event.isDedup l (fun _ => rfl)
  rw [hev]
  by_cases ha : (process_new_bids env.fetchRes
      (env.sched (env.dedup (scrape_results_page page)))).aborted
  · refine ⟨?_, ?_, rfl⟩
    · simp [ha, List.countP_cons, List.countP_append, Event.isDedup, hcount0]
    · intro id hid
      simp only [ha, if_true, List.append_nil, List.mem_cons, List.mem_map] at hid
      rcases hid with h1 | h1 | ⟨x, hx, h1⟩
      · exact absurd h1 (by simp)
      · exact absurd h1 (by simp)
      · rw [show x = id from Event.detailFetched.inj h1] at hx
        exact hx
  · refine ⟨?_, ?_, rfl⟩
    · simp [ha, List.countP_cons, List.countP_append, Event.isDedup, hcount0]
    · intro id hid
      simp only [ha, if_false, List.mem_cons, List.mem_append, List.mem_map,
        List.mem_singleton] at hid
      rcases hid with h1 | h1 | ⟨x, hx, h1⟩ | h1
      · exact absurd h1 (by simp)
      · exact absurd h1 (by simp)
      · rw [show x = id from Event.detailFetched.inj h1] at hx
        exact hx
      · exact absurd h1 (by simp)

/-- Witness for `c7_dedup_once_before_fetch` at the fully successful
concrete environment. -/
theorem c7_dedup_once_before_fetch_witness :
    (scrape envW).events.countP Event.isDedup = 1 ∧
    (∀ id, Event.detailFetched id ∈ (scrape envW).events →
      id ∈ envW.dedup (scrape_results_page listingFixture)) ∧
    noDetailBeforeDedup (scrape envW).events = true :=
  c7_dedup_once_before_fetch envW listingFixture rfl

/-- **C9.** Bounded worker pool: from the initial pool state of any
set of new identifiers — however large — every state the executor can
reach has at most `NUMBER_OF_THREADS = 5` tasks in flight. -/
theorem c9_pool_bound (new_ids : List String) (s : PoolState)
    (h : Relation.ReflTransGen PoolStep (initPool new_ids) s) :
    s.inFlight.length ≤ NUMBER_OF_THREADS ∧ NUMBER_OF_THREADS = 5 := by
  refine ⟨?_, rfl⟩
  induction h with
  | refl => simp [initPool, NUMBER_OF_THREADS]
  | tail hsteps hstep ih =>
    cases hstep with
    | start id rest inF dn hlt =>
      simp only [List.length_append, List.length_cons, List.length_nil]
      omega
    | finish pend inF₁ inF₂ dn id =>
      simp only [List.length_append, List.length_cons] at ih ⊢
      omega

/-- Witness for `c9_pool_bound`: with twenty submitted identifiers,
the state reached after starting the first task is within the bound. -/
theorem c9_pool_bound_witness :
    (PoolState.mk (List.drop 1 ids20) ["1"] []).inFlight.length ≤ NUMBER_OF_THREADS ∧
      NUMBER_OF_THREADS = 5 :=
  c9_pool_bound ids20 ⟨List.drop 1 ids20, ["1"], []⟩
    (Relation.ReflTransGen.single
      (PoolStep.start "1" (List.drop 1 ids20) [] [] (by decide)))

end Bidwire
